import Mathlib

/-!
# Tool-to-Capability Adaptation Layer — verification development

Shallow embedding of the adaptation layer shared by the four agent driver
scripts (dexscreener, coingecko, swap, allora): name formatting, the
formatted-name → tool registry, capability building (including the
coingecko long-description truncation and the swap aliasing table), the
execution dispatcher with its try/catch failure isolation, and the
request-observer wrapper around the completion call.

Modelling conventions:
- JavaScript values that flow through the layer (tool arguments and tool
  results) are modelled by `JSValue`, the parsed-JSON fragment the tools
  actually produce (numbers restricted to integers; float formatting is
  outside the embedding). The JavaScript `undefined` result is modelled by
  `Option JSValue` with `none` for `undefined`, since `undefined` is not a
  JSON value but does occur as a possible `execute` result.
- A thrown JavaScript value is `Thrown`: either an `Error` carrying a
  message, or some non-`Error` value.
- `async`/`await` is erased: `execute` is a function returning
  `Except Thrown (Option JSValue)`, and `try`/`catch` is matching on the
  `Except`.
- The mutable `toolNameMap` (a JS `Map`) is explicit state: a list of
  set-operations, most recent first, with `get` returning the most recent
  binding — exactly the `Map.set`/`Map.get` last-write-wins semantics.
- `JSON.stringify(v, null, 2)` is modelled by `jsonStringify2`; the
  round-trip direction uses `jsonParse`, a parser for the emitted text
  (the source relies on the standard `JSON.parse` here, which is not part
  of the repository, so the parser is part of this development).
-/

/-- The parsed-JSON fragment of JavaScript values handled by the layer. -/
inductive JSValue where
  | str (s : String)
  | num (n : Int)
  | bool (b : Bool)
  | null
  | arr (elems : List JSValue)
  | obj (fields : List (String × JSValue))

/-- A thrown JavaScript value: an `Error` instance with its `.message`,
or any non-`Error` thrown value. -/
inductive Thrown where
  | error (message : String)
  | nonError
deriving DecidableEq

/-- `error instanceof Error ? error.message : 'Unknown error'` — the text
interpolated into the catch-block template. -/
def thrownMessage : Thrown → String
  | .error m => m
  | .nonError => "Unknown error"

/-- A tool handle as discovered from a plugin: provider-qualified name,
description, and the (async, fallible) execute operation.  The parameter
schema plays no role in any dispatch decision and is omitted. -/
structure Tool where
  name : String
  description : String
  execute : List (String × JSValue) → Except Thrown (Option JSValue)

/-- The `toolNameMap` state: `set` operations, most recent first. -/
def Registry := List (String × Tool)

/-- `new Map()` — the empty registry. -/
def Registry.empty : Registry := []

/-- `toolNameMap.set(name, tool)` — records the binding; later bindings
shadow earlier ones for the same key. -/
def Registry.set (r : Registry) (name : String) (tool : Tool) : Registry :=
  (name, tool) :: r

/-- `toolNameMap.get(name)` — the most recently set binding for `name`,
or `none` when the key was never set. -/
def Registry.get (r : Registry) (name : String) : Option Tool :=
  match r with
  | [] => none
  | (k, t) :: rest => if k = name then some t else Registry.get rest name

/-- `formatToolName = (name) => name.replace(/\./g, '_')` — every dot
becomes an underscore, character by character. -/
def formatToolName (name : String) : String :=
  String.mk (name.data.map (fun c => if c = '.' then '_' else c))

/-! ## JSON serialization — `JSON.stringify(value, null, 2)` -/

/-- One indentation column per two spaces at nesting gap `n`. -/
def pad (n : Nat) : List Char := List.replicate n ' '

/-- `0..9` as characters, for decimal printing. -/
def digitChar : Nat → Char
  | 0 => '0' | 1 => '1' | 2 => '2' | 3 => '3' | 4 => '4'
  | 5 => '5' | 6 => '6' | 7 => '7' | 8 => '8' | _ => '9'

/-- `0..15` as lowercase hexadecimal characters, for `\u00XX` escapes. -/
def hexChar : Nat → Char
  | 0 => '0' | 1 => '1' | 2 => '2' | 3 => '3' | 4 => '4'
  | 5 => '5' | 6 => '6' | 7 => '7' | 8 => '8' | 9 => '9'
  | 10 => 'a' | 11 => 'b' | 12 => 'c' | 13 => 'd' | 14 => 'e' | _ => 'f'

/-- Decimal digits of `n`, most significant first, by repeated division;
the first argument is fuel (`n` itself suffices). -/
def natCharsAux : Nat → Nat → List Char
  | 0, _ => []
  | fuel + 1, n =>
    if n = 0 then [] else natCharsAux fuel (n / 10) ++ [digitChar (n % 10)]

/-- `Number.prototype.toString` for a natural number. -/
def natChars (n : Nat) : List Char :=
  if n = 0 then ['0'] else natCharsAux n n

/-- `Number.prototype.toString` for an integer (the JSON number form). -/
def intChars (n : Int) : List Char :=
  if n < 0 then '-' :: natChars n.natAbs else natChars n.toNat

/-- The escape `JSON.stringify` applies to one character of a string:
quote and backslash are backslash-escaped, the named control characters
use their short escapes, remaining control characters use `\u00XX`, and
everything else passes through. -/
def escapeChar (c : Char) : List Char :=
  if c = '"' then ['\\', '"']
  else if c = '\\' then ['\\', '\\']
  else if c = '\x08' then ['\\', 'b']
  else if c = '\x0c' then ['\\', 'f']
  else if c = '\n' then ['\\', 'n']
  else if c = '\r' then ['\\', 'r']
  else if c = '\t' then ['\\', 't']
  else if c.toNat < 32 then
    ['\\', 'u', '0', '0', hexChar (c.toNat / 16), hexChar (c.toNat % 16)]
  else [c]

/-- A JSON string literal: quote, escaped body, quote. -/
def serStr (s : String) : List Char :=
  '"' :: (s.data.flatMap escapeChar ++ ['"'])

mutual

/-- `JSON.stringify(v, null, 2)` at current indentation gap `ind`:
empty arrays/objects print compactly, non-empty ones put each element on
its own line indented two further columns. -/
def serV (ind : Nat) : JSValue → List Char
  | .num n => intChars n
  | .str s => serStr s
  | .null => ['n', 'u', 'l', 'l']
  | .bool false => ['f', 'a', 'l', 's', 'e']
  | .bool true => ['t', 'r', 'u', 'e']
  | .arr [] => ['[', ']']
  | .arr (x :: xs) =>
    '[' :: '\n' :: (pad (ind + 2) ++ serV (ind + 2) x ++ serElemsTail (ind + 2) xs
      ++ '\n' :: (pad ind ++ [']']))
  | .obj [] => ['\x7b', '\x7d']
  | .obj (f :: fs) =>
    '\x7b' :: '\n' :: (pad (ind + 2) ++ serStr f.1 ++ ':' :: ' ' :: serV (ind + 2) f.2
      ++ serFieldsTail (ind + 2) fs ++ '\n' :: (pad ind ++ ['\x7d']))

/-- Remaining array elements: `",\n" ++ indent ++ element` each. -/
def serElemsTail (ind : Nat) : List JSValue → List Char
  | [] => []
  | x :: xs => ',' :: '\n' :: (pad ind ++ serV ind x ++ serElemsTail ind xs)

/-- Remaining object fields: `",\n" ++ indent ++ key ++ ": " ++ value` each. -/
def serFieldsTail (ind : Nat) : List (String × JSValue) → List Char
  | [] => []
  | f :: fs =>
    ',' :: '\n' :: (pad ind ++ serStr f.1 ++ ':' :: ' ' :: serV ind f.2
      ++ serFieldsTail ind fs)

end

/-- `JSON.stringify(v, null, 2)` as used by the dispatcher. -/
def jsonStringify2 (v : JSValue) : String := String.mk (serV 0 v)

/-! ## JSON parsing — the standard `JSON.parse`, for the round-trip -/

/-- JSON insignificant whitespace. -/
def isWS (c : Char) : Bool := c = ' ' || c = '\n' || c = '\t' || c = '\r'

/-- Skip insignificant whitespace. -/
def skipWS (l : List Char) : List Char := l.dropWhile isWS

/-- Numeric value of a decimal digit character. -/
def digitVal (c : Char) : Nat := c.toNat - 48

/-- Numeric value of a lowercase-hex digit character. -/
def hexVal (c : Char) : Nat := if c.toNat ≤ 57 then c.toNat - 48 else c.toNat - 87

/-- Parse a run of decimal digits into its value; fails on no digits. -/
def parseNatChars (l : List Char) : Option (Nat × List Char) :=
  let ds := l.takeWhile Char.isDigit
  match ds with
  | [] => none
  | _ => some (ds.foldl (fun a c => a * 10 + digitVal c) 0, l.dropWhile Char.isDigit)

/-- The character denoted by a short escape `\X`, when `X` names one. -/
def unescape (c : Char) : Option Char :=
  if c = '"' then some '"'
  else if c = '\\' then some '\\'
  else if c = '/' then some '/'
  else if c = 'b' then some '\x08'
  else if c = 'f' then some '\x0c'
  else if c = 'n' then some '\n'
  else if c = 'r' then some '\r'
  else if c = 't' then some '\t'
  else none

/-- Parse a string-literal body up to the closing quote, decoding
escapes; returns the decoded characters and the input after the quote. -/
def parseStrBody : List Char → Option (List Char × List Char)
  | [] => none
  | c :: rest =>
    if c = '"' then some ([], rest)
    else if c = '\\' then
      match rest with
      | [] => none
      | e :: rest2 =>
        if e = 'u' then
          match rest2 with
          | h1 :: h2 :: h3 :: h4 :: rest3 =>
            (parseStrBody rest3).map (fun p =>
              (Char.ofNat (((hexVal h1 * 16 + hexVal h2) * 16 + hexVal h3) * 16 + hexVal h4)
                :: p.1, p.2))
          | _ => none
        else
          match unescape e with
          | some c' => (parseStrBody rest2).map (fun p => (c' :: p.1, p.2))
          | none => none
    else (parseStrBody rest).map (fun p => (c :: p.1, p.2))

mutual

/-- Parse one JSON value after skipping leading whitespace. Fuel-indexed;
each recursive step spends one unit. -/
def parseVal : Nat → List Char → Option (JSValue × List Char)
  | 0, _ => none
  | fuel + 1, l =>
    match skipWS l with
    | [] => none
    | c :: rest =>
      if c = 'n' then
        match rest with
        | 'u' :: 'l' :: 'l' :: r => some (.null, r)
        | _ => none
      else if c = 't' then
        match rest with
        | 'r' :: 'u' :: 'e' :: r => some (.bool true, r)
        | _ => none
      else if c = 'f' then
        match rest with
        | 'a' :: 'l' :: 's' :: 'e' :: r => some (.bool false, r)
        | _ => none
      else if c = '"' then
        (parseStrBody rest).map (fun p => (.str (String.mk p.1), p.2))
      else if c = '-' then
        match parseNatChars rest with
        | some (m, r) => some (.num (-(m : Int)), r)
        | none => none
      else if c.isDigit then
        match parseNatChars (c :: rest) with
        | some (m, r) => some (.num (m : Int), r)
        | none => none
      else if c = '[' then
        if (skipWS rest).head? = some ']' then some (.arr [], (skipWS rest).tail)
        else
          match parseVal fuel (skipWS rest) with
          | some (v, r1) =>
            match parseElems fuel r1 with
            | some (vs, r2) => some (.arr (v :: vs), r2)
            | none => none
          | none => none
      else if c = '\x7b' then
        if (skipWS rest).head? = some '\x7d' then some (.obj [], (skipWS rest).tail)
        else if (skipWS rest).head? = some '"' then
          match parseStrBody (skipWS rest).tail with
          | some (kcs, r1) =>
            if (skipWS r1).head? = some ':' then
              match parseVal fuel (skipWS r1).tail with
              | some (v, r3) =>
                match parseFields fuel r3 with
                | some (fs, r4) => some (.obj ((String.mk kcs, v) :: fs), r4)
                | none => none
              | none => none
            else none
          | none => none
        else none
      else none

/-- Parse the tail of an array: either the closing bracket or a comma
followed by one more element. -/
def parseElems : Nat → List Char → Option (List JSValue × List Char)
  | 0, _ => none
  | fuel + 1, l =>
    if (skipWS l).head? = some ']' then some ([], (skipWS l).tail)
    else if (skipWS l).head? = some ',' then
      match parseVal fuel (skipWS l).tail with
      | some (v, r1) =>
        match parseElems fuel r1 with
        | some (vs, r2) => some (v :: vs, r2)
        | none => none
      | none => none
    else none

/-- Parse the tail of an object: either the closing brace or a comma
followed by one more `"key": value` field. -/
def parseFields : Nat → List Char → Option (List (String × JSValue) × List Char)
  | 0, _ => none
  | fuel + 1, l =>
    if (skipWS l).head? = some '\x7d' then some ([], (skipWS l).tail)
    else if (skipWS l).head? = some ',' then
      if (skipWS (skipWS l).tail).head? = some '"' then
        match parseStrBody (skipWS (skipWS l).tail).tail with
        | some (kcs, r2) =>
          if (skipWS r2).head? = some ':' then
            match parseVal fuel (skipWS r2).tail with
            | some (v, r4) =>
              match parseFields fuel r4 with
              | some (fs, r5) => some ((String.mk kcs, v) :: fs, r5)
              | none => none
            | none => none
          else none
        | none => none
      else none
    else none

end

/-- `JSON.parse`: parse one value with ample fuel and require only
whitespace to remain. -/
def jsonParse (s : String) : Option JSValue :=
  match parseVal (s.data.length + 1) s.data with
  | some (v, rest) => if skipWS rest = [] then some v else none
  | none => none

mutual

/-- Fuel sufficient for `parseVal` on the serialized form of a value. -/
def needV : JSValue → Nat
  | .arr [] => 1
  | .arr (x :: xs) => 1 + max (needV x) (needElems xs)
  | .obj [] => 1
  | .obj (f :: fs) => 1 + max (needV f.2) (needFields fs)
  | _ => 1

/-- Fuel sufficient for `parseElems` on a serialized element tail. -/
def needElems : List JSValue → Nat
  | [] => 1
  | x :: xs => 1 + max (needV x) (needElems xs)

/-- Fuel sufficient for `parseFields` on a serialized field tail. -/
def needFields : List (String × JSValue) → Nat
  | [] => 1
  | f :: fs => 1 + max (needV f.2) (needFields fs)

end

/-- A continuation that cannot extend a just-parsed numeric token: it
does not begin with a digit. -/
def numSafe (l : List Char) : Prop :=
  ∀ c, l.head? = some c → c.isDigit = false

/-- A whitespace-only character list. -/
def allWS (l : List Char) : Prop := ∀ c ∈ l, isWS c = true

/-! ## The execution dispatcher (`toCapability`'s `run`) -/

/-- `typeof response === 'object'` — true exactly for objects, arrays and
`null`. -/
def jsTypeofIsObject : JSValue → Bool
  | .obj _ => true
  | .arr _ => true
  | .null => true
  | _ => false

/-- The `TypeError` message for `undefined.toString()` (V8 wording). -/
def undefinedToStringMessage : String :=
  "Cannot read properties of undefined (reading 'toString')"

/-- `response.toString()` on the non-object, non-undefined values; the
object-typed values never reach this call (guarded by the `typeof`
check), so those branches are vacuous. -/
def jsToString : JSValue → String
  | .str s => s
  | .num n => String.mk (intChars n)
  | .bool true => "true"
  | .bool false => "false"
  | .null => "null"
  | .arr _ => ""
  | .obj _ => ""

/-- Result normalization inside the `try`:
`typeof response === 'object' ? JSON.stringify(response, null, 2)
: response.toString()`; on `undefined` the `.toString()` access itself
throws a `TypeError`. -/
def normalizeResponse : Option JSValue → Except Thrown String
  | none => .error (.error undefinedToStringMessage)
  | some v =>
    if jsTypeofIsObject v then .ok (jsonStringify2 v) else .ok (jsToString v)

/-- The catch-block template:
`` `An error occurred while running ${name}: ${...}` ``. -/
def catchTemplate (name : String) (e : Thrown) : String :=
  "An error occurred while running " ++ name ++ ": " ++ thrownMessage e

/-- The `try` body of `run`: resolve the formatted name in the registry
(throwing the not-found `Error` when absent), execute the resolved tool,
normalize the result. -/
def runTry (r : Registry) (name : String) (args : List (String × JSValue)) :
    Except Thrown String :=
  match Registry.get r name with
  | none => .error (.error ("Original tool not found for " ++ name))
  | some tool => (tool.execute args).bind normalizeResponse

/-- The full `run` closure body shared by the dexscreener, coingecko and
swap variants: the `try` body guarded by the catch-block template.  The
registry argument is the state of `toolNameMap` at call time. -/
def capabilityRun (r : Registry) (name : String) (args : List (String × JSValue)) :
    String :=
  match runTry r name args with
  | .ok s => s
  | .error e => catchTemplate name e

/-- Dispatch once a tool has been resolved: execute and normalize under
the same catch template.  (`capabilityRun` equals this applied to the
registry's current binding.) -/
def dispatchResolved (name : String) (tool : Tool) (args : List (String × JSValue)) :
    String :=
  match (tool.execute args).bind normalizeResponse with
  | .ok s => s
  | .error e => catchTemplate name e

/-! ## Capability building, per variant -/

/-- A built capability: the formatted name, the (possibly truncated)
description, and the run closure, which receives the call-time
`toolNameMap` state.  The schema is carried through unchanged in the
source and plays no role here. -/
structure Capability where
  name : String
  description : String
  run : Registry → List (String × JSValue) → String

/-- JavaScript `a || b` on strings: the empty string is the only falsy
string. -/
def jsOrElse (a b : String) : String := if a = "" then b else a

/-- `String.prototype.split('.')` on the character list: splits at every
dot, keeping empty groups. -/
def splitOnDot : List Char → List (List Char)
  | [] => [[]]
  | c :: rest =>
    let r := splitOnDot rest
    if c = '.' then [] :: r
    else
      match r with
      | [] => [[c]]
      | g :: gs => (c :: g) :: gs

/-- `tool.name.split('.').pop()` — the text after the last dot. -/
def splitDotLast (name : String) : String :=
  String.mk ((splitOnDot name.data).getLastD [])

/-- `tool.name.split('.').pop() || tool.name`. -/
def functionNamePart (name : String) : String :=
  jsOrElse (splitDotLast name) name

/-- The provider kind distinguished by the swap variant's builder. -/
inductive ToolType where
  | dexscreener
  | jupiter
deriving DecidableEq

/-- The swap variant's `nameMap` lookup with its `|| baseName` fallback
(every table value is non-empty, hence truthy). -/
def jupiterAlias (s : String) : String :=
  if s = "get_quote" then "get_quote"
  else if s = "quote" then "get_quote"
  else if s = "swapTokens" then "swap"
  else if s = "swap" then "swap"
  else s

/-- The swap variant's base-name computation: take the part after the
last dot (falling back to the full name), then apply the jupiter alias
table when the tool is a jupiter tool. -/
def computeBaseName (toolType : ToolType) (name : String) : String :=
  let functionName := functionNamePart name
  let baseName := jsOrElse functionName name
  match toolType with
  | .jupiter => jupiterAlias baseName
  | .dexscreener => baseName

/-- The formatted capability name the swap variant computes for a tool. -/
def swapFormattedName (toolType : ToolType) (tool : Tool) : String :=
  formatToolName (computeBaseName toolType tool.name)

/-- `'userPublicKey' in args` — key-presence test on the args object. -/
def hasArg (args : List (String × JSValue)) (key : String) : Bool :=
  args.any (fun p => p.1 = key)

/-- The swap variant's `run`: the jupiter-swap precondition check first
(returning the fixed error string without touching the registry or any
tool), then the shared dispatcher body. -/
def swapRun (toolType : ToolType) (formattedName : String) (r : Registry)
    (args : List (String × JSValue)) : String :=
  if toolType = ToolType.jupiter ∧ formattedName = "swap" ∧ hasArg args "userPublicKey" = false
  then "Error: Missing userPublicKey for swap operation."
  else capabilityRun r formattedName args

/-- The swap variant's `toCapability`: computes the formatted name,
registers the tool under it (a side effect on `toolNameMap`), and
returns the capability whose run closure captures the formatted name. -/
def swapBuild (r : Registry) (tool : Tool) (toolType : ToolType) :
    Registry × Capability :=
  let formattedName := swapFormattedName toolType tool
  (Registry.set r formattedName tool,
   { name := formattedName
     description := tool.description
     run := swapRun toolType formattedName })

/-- The dexscreener variant's `toCapability`: name formatting only; the
run closure captures the formatted name and resolves through the
registry at call time. -/
def dexToCapability (tool : Tool) : Capability :=
  { name := formatToolName tool.name
    description := tool.description
    run := fun r args => capabilityRun r (formatToolName tool.name) args }

/-- The dexscreener/coingecko registration pass
(`tools.forEach(... toolNameMap.set(formattedName, tool))`). -/
def registerTools (r : Registry) (tools : List Tool) : Registry :=
  tools.foldl (fun acc t => Registry.set acc (formatToolName t.name) t) r

/-- The truncation marker the coingecko variant appends. -/
def truncationSuffix : String := "... (truncated)"

/-- The coingecko long-description guard:
`description.substring(0, 1000) + "... (truncated)"` when the length
exceeds 1000, identity otherwise. -/
def truncateDescription (d : String) : String :=
  if 1000 < d.data.length then String.mk (d.data.take 1000) ++ truncationSuffix else d

/-- The coingecko pre-pass mutating `tool.description` in place. -/
def coingeckoPrepare (t : Tool) : Tool :=
  { t with description := truncateDescription t.description }

/-- The coingecko build of one tool: truncation pre-pass, then the same
`toCapability` as the dexscreener variant. -/
def coingeckoBuild (t : Tool) : Capability :=
  dexToCapability (coingeckoPrepare t)

/-- The allora variant's capability-name computation: part after the
last dot, then the allora alias table. -/
def alloraAlias (s : String) : String :=
  if s = "get_price_prediction" then "get_price_prediction"
  else if s = "price_prediction" then "get_price_prediction"
  else s

/-- The allora variant's capability name for a tool name. -/
def alloraCapabilityName (name : String) : String :=
  alloraAlias (jsOrElse (functionNamePart name) name)

/-- The allora variant's `toCapability`: its run closure captures the
`tool` handle itself — it calls `tool.execute(args)` directly and never
consults any registry (the allora script has no `toolNameMap` at all);
its catch template names `tool.name`, not the capability name. -/
def alloraBuild (tool : Tool) : Capability :=
  { name := alloraCapabilityName tool.name
    description := tool.description
    run := fun _ args =>
      match (tool.execute args).bind normalizeResponse with
      | .ok s => s
      | .error e => catchTemplate tool.name e }

/-! ## The request observer -/

/-- The argument list of the wrapped completions call: per its TypeScript
signature the first argument is the request-params object, the rest are
options. -/
structure CreateArgs where
  body : List (String × JSValue)
  rest : List JSValue

/-- Observable effects of the wrapper: console output and delegations to
the original bound method (each carrying the argument list passed on). -/
inductive ObsEvent where
  | consoleLog (line : String)
  | delegated (args : CreateArgs)

/-- Whether an event is a delegation to the original call. -/
def ObsEvent.isDelegation : ObsEvent → Bool
  | .delegated _ => true
  | .consoleLog _ => false

/-- `body.tools` — property access on the request object. -/
def getField (fields : List (String × JSValue)) (k : String) : JSValue :=
  ((fields.find? (fun p => p.1 = k)).map Prod.snd).getD JSValue.null

/-- The replacement installed over `openai.chat.completions.create`:
log the tool list when the body carries one, then call the original with
the same argument list and return its result.  The event list records
the console output and each delegation. -/
def observedCreate {R : Type} (original : CreateArgs → R) (args : CreateArgs) :
    List ObsEvent × R :=
  let logs :=
    if hasArg args.body "tools" then
      [ObsEvent.consoleLog "--- OpenAI Request (Tools): ---",
       ObsEvent.consoleLog (jsonStringify2 (getField args.body "tools"))]
    else []
  (logs ++ [ObsEvent.delegated args], original args)

/-! ## Concrete fixtures used by the witness theorems -/

/-- A registered tool whose execute always throws `Error("boom")`. -/
def failingTool : Tool :=
  { name := "dex.fail", description := "d",
    execute := fun _ => .error (.error "boom") }

/-- A jupiter tool whose provider name aliases to `swap`. -/
def jupSwapTool : Tool :=
  { name := "jupiter.swapTokens", description := "swap tool",
    execute := fun _ => .ok (some (.str "swapped")) }

/-- A second tool whose computed base name also formats to `swap`. -/
def otherSwapTool : Tool :=
  { name := "aggregator.swap", description := "other swap tool",
    execute := fun _ => .ok (some (.str "other")) }

/-- The allora tool a capability is built from in the counterexample. -/
def alloraOldTool : Tool :=
  { name := "allora.get_price_prediction", description := "old",
    execute := fun _ => .ok (some (.str "old")) }

/-- A different tool registered later under the same formatted name. -/
def alloraNewTool : Tool :=
  { name := "allora.price_prediction", description := "new",
    execute := fun _ => .ok (some (.str "new")) }

/-- A tool whose execute completes successfully with `undefined`. -/
def undefResultTool : Tool :=
  { name := "dex.undef", description := "d",
    execute := fun _ => .ok none }

/-- A tool whose execute completes successfully with `null`. -/
def nullResultTool : Tool :=
  { name := "dex.nullres", description := "d",
    execute := fun _ => .ok (some .null) }

/-- A tool returning the structured value of the spec's scenario. -/
def structuredTool : Tool :=
  { name := "dex.search_pairs", description := "d",
    execute := fun _ => .ok (some (.obj [("price", .num 123)])) }

/-- A tool returning a plain string result. -/
def stringResultTool : Tool :=
  { name := "dex.textual", description := "d",
    execute := fun _ => .ok (some (.str "plain text")) }

/-- A coingecko tool with a 1001-character description. -/
def longDescTool : Tool :=
  { name := "coingecko.get_coin_data", description := String.mk (List.replicate 1001 'a'),
    execute := fun _ => .ok (some .null) }

/-! ## Shared lemmas -/

theorem data_append (a b : String) : (a ++ b).data = a.data ++ b.data := rfl

theorem registry_get_set (r : Registry) (n : String) (t : Tool)
    (args : List (String × JSValue)) :
    Registry.get (Registry.set r n t) n = some t ∧
    capabilityRun (Registry.set r n t) n args = dispatchResolved n t args := by
  have hget : Registry.get (Registry.set r n t) n = some t := by
    show (if n = n then some t else _) = some t
    simp
  refine ⟨hget, ?_⟩
  unfold capabilityRun runTry dispatchResolved
  rw [hget]

/-! ## Claims -/

/-- C1: for every unregistered formatted name and every args object, the
dispatcher's invoke returns a string (it is total by construction) whose
text contains the literal name; nothing is thrown across the capability
boundary. -/
theorem invoke_unregistered_returns_string_with_name
    (r : Registry) (name : String) (args : List (String × JSValue))
    (h : Registry.get r name = none) :
    capabilityRun r name args =
      "An error occurred while running " ++ name ++ ": " ++
        ("Original tool not found for " ++ name) ∧
    ∃ pre post, (capabilityRun r name args).data = pre ++ name.data ++ post := by
  have hrun : capabilityRun r name args =
      catchTemplate name (.error ("Original tool not found for " ++ name)) := by
    simp only [capabilityRun, runTry, h]
  constructor
  · rw [hrun]; rfl
  · rw [hrun]
    refine ⟨"An error occurred while running ".data,
      (": " ++ ("Original tool not found for " ++ name)).data, ?_⟩
    simp [catchTemplate, thrownMessage, data_append]

/-- C1 witness: the empty registry with the spec's scenario name. -/
theorem invoke_unregistered_witness :
    Registry.get Registry.empty "nonexistent_tool" = none ∧
    ∃ pre post, (capabilityRun Registry.empty "nonexistent_tool" []).data =
      pre ++ "nonexistent_tool".data ++ post :=
  ⟨rfl, (invoke_unregistered_returns_string_with_name Registry.empty "nonexistent_tool" [] rfl).2⟩

/-- C2: when the registered tool's execute throws an `Error`, invoke
returns the catch-template string embedding the thrown message, and the
exception does not propagate (the result is an ordinary string). -/
theorem invoke_throwing_tool_returns_message
    (r : Registry) (name : String) (args : List (String × JSValue))
    (t : Tool) (m : String)
    (hres : Registry.get r name = some t)
    (hexec : t.execute args = .error (.error m)) :
    capabilityRun r name args = "An error occurred while running " ++ name ++ ": " ++ m ∧
    ∃ pre post, (capabilityRun r name args).data = pre ++ m.data ++ post := by
  have hrun : capabilityRun r name args = catchTemplate name (.error m) := by
    simp only [capabilityRun, runTry, hres, hexec, Except.bind]
  constructor
  · rw [hrun]; rfl
  · rw [hrun]
    refine ⟨"An error occurred while running ".data ++ name.data ++ ": ".data, [], ?_⟩
    simp [catchTemplate, thrownMessage, data_append]

/-- C2 witness: a registered tool throwing `Error("boom")`. -/
theorem invoke_throwing_tool_witness :
    capabilityRun (Registry.set Registry.empty "dex_fail" failingTool) "dex_fail" [] =
      "An error occurred while running " ++ "dex_fail" ++ ": " ++ "boom" :=
  (invoke_throwing_tool_returns_message (Registry.set Registry.empty "dex_fail" failingTool)
    "dex_fail" [] failingTool "boom" rfl rfl).1

/-- C3: a description longer than 1000 characters yields, after the
coingecko build, a capability description that is exactly the first 1000
characters followed by the fixed marker `... (truncated)` (so 1015
characters in total). -/
theorem long_description_truncated
    (t : Tool) (h : 1000 < t.description.data.length) :
    (coingeckoBuild t).description =
      String.mk (t.description.data.take 1000) ++ truncationSuffix ∧
    ((coingeckoBuild t).description).data.length = 1015 := by
  have hdesc : (coingeckoBuild t).description = truncateDescription t.description := rfl
  rw [hdesc, truncateDescription, if_pos h]
  refine ⟨rfl, ?_⟩
  rw [data_append]
  have hsuf : truncationSuffix.data.length = 15 := by decide
  simp only [List.length_append, List.length_take, hsuf]
  omega

/-- C3 witness: the 1001-character description. -/
theorem long_description_truncated_witness :
    ((coingeckoBuild longDescTool).description).data.length = 1015 :=
  (long_description_truncated longDescTool (by
    show 1000 < (List.replicate 1001 'a').length
    rw [List.length_replicate]
    omega)).2

/-- C7: `formatToolName` is deterministic, length-preserving, maps every
dot to an underscore and every other character to itself, and its result
contains no dot. -/
theorem format_tool_name_spec (n : String) :
    formatToolName n = formatToolName n ∧
    (∀ c ∈ (formatToolName n).data, c ≠ '.') ∧
    (formatToolName n).data.length = n.data.length ∧
    ∀ (i : Nat) (hi : i < n.data.length) (hi2 : i < (formatToolName n).data.length),
      (formatToolName n).data.get ⟨i, hi2⟩ =
        if n.data.get ⟨i, hi⟩ = '.' then '_' else n.data.get ⟨i, hi⟩ := by
  refine ⟨rfl, ?_, by simp [formatToolName], ?_⟩
  · intro c hc
    simp only [formatToolName, List.mem_map] at hc
    obtain ⟨a, _, ha⟩ := hc
    by_cases hadot : a = '.'
    · rw [if_pos hadot] at ha
      rw [← ha]
      decide
    · rw [if_neg hadot] at ha
      rw [← ha]
      exact hadot
  · intro i hi hi2
    simp [formatToolName]

/-- C7 witness: the formatted dexscreener name. -/
theorem format_tool_name_witness :
    (∀ c ∈ (formatToolName "dex.search_pairs").data, c ≠ '.') ∧
    (formatToolName "dex.search_pairs").data.length = "dex.search_pairs".data.length ∧
    (formatToolName "dex.search_pairs").data.get ⟨3, by decide⟩ = '_' := by
  refine ⟨(format_tool_name_spec "dex.search_pairs").2.1,
    (format_tool_name_spec "dex.search_pairs").2.2.1, ?_⟩
  have h := (format_tool_name_spec "dex.search_pairs").2.2.2 3 (by decide) (by decide)
  simpa using h

/-- C8: a jupiter-typed capability whose formatted name is `swap`,
invoked on args lacking `userPublicKey`, returns the fixed missing-
argument string — for every call-time registry state, so no tool's
execute is consulted. -/
theorem swap_missing_user_public_key
    (r0 r : Registry) (t : Tool) (args : List (String × JSValue))
    (hn : swapFormattedName ToolType.jupiter t = "swap")
    (h : hasArg args "userPublicKey" = false) :
    ((swapBuild r0 t ToolType.jupiter).2).run r args =
      "Error: Missing userPublicKey for swap operation." := by
  show swapRun ToolType.jupiter (swapFormattedName ToolType.jupiter t) r args = _
  rw [hn, swapRun, if_pos ⟨rfl, rfl, h⟩]

/-- C8 witness: `jupiter.swapTokens` invoked with an unrelated argument
object, against an arbitrary concrete registry holding the tool. -/
theorem swap_missing_user_public_key_witness :
    ((swapBuild Registry.empty jupSwapTool ToolType.jupiter).2).run
      (Registry.set Registry.empty "swap" jupSwapTool)
      [("quoteResponse", .null)] =
      "Error: Missing userPublicKey for swap operation." :=
  swap_missing_user_public_key Registry.empty
    (Registry.set Registry.empty "swap" jupSwapTool) jupSwapTool
    [("quoteResponse", .null)] (by decide) (by decide)

/-- C4: building two tools whose computed base names format to the same
name leaves the registry resolving that name to the later tool, invoking
the shared name dispatches to the later tool (last-write-wins, no
error), and at most one tool is addressable per formatted name. -/
theorem collision_last_write_wins
    (r0 : Registry) (t1 t2 : Tool) (tt1 tt2 : ToolType)
    (args : List (String × JSValue)) (n : String)
    (h1 : swapFormattedName tt1 t1 = n) (h2 : swapFormattedName tt2 t2 = n) :
    Registry.get (swapBuild (swapBuild r0 t1 tt1).1 t2 tt2).1 n = some t2 ∧
    capabilityRun (swapBuild (swapBuild r0 t1 tt1).1 t2 tt2).1 n args =
      dispatchResolved n t2 args ∧
    (∀ ta tb, Registry.get (swapBuild (swapBuild r0 t1 tt1).1 t2 tt2).1 n = some ta →
        Registry.get (swapBuild (swapBuild r0 t1 tt1).1 t2 tt2).1 n = some tb →
        ta = tb) := by
  have hr : (swapBuild (swapBuild r0 t1 tt1).1 t2 tt2).1 =
      Registry.set (swapBuild r0 t1 tt1).1 (swapFormattedName tt2 t2) t2 := rfl
  rw [hr, h2]
  obtain ⟨hget, hrun⟩ :=
    registry_get_set (swapBuild r0 t1 tt1).1 n t2 args
  refine ⟨hget, hrun, ?_⟩
  intro ta tb ha hb
  rw [hget] at ha hb
  cases ha
  cases hb
  rfl

/-- C4 witness: `jupiter.swapTokens` (aliased to `swap`) collides with
`aggregator.swap`; the later build wins. -/
theorem collision_last_write_wins_witness :
    Registry.get
      (swapBuild (swapBuild Registry.empty jupSwapTool ToolType.jupiter).1
        otherSwapTool ToolType.jupiter).1 "swap" = some otherSwapTool ∧
    capabilityRun
      (swapBuild (swapBuild Registry.empty jupSwapTool ToolType.jupiter).1
        otherSwapTool ToolType.jupiter).1 "swap" [] =
      dispatchResolved "swap" otherSwapTool [] := by
  obtain ⟨hget, hrun, _⟩ :=
    collision_last_write_wins Registry.empty jupSwapTool otherSwapTool
      ToolType.jupiter ToolType.jupiter [] "swap" (by decide) (by decide)
  exact ⟨hget, hrun⟩

/-- C5 counterexample: a capability built by the allora variant does not
resolve through any registry at call time — after a different tool is
registered under the very formatted name, its run still executes the
captured tool (`old`), while registry resolution yields the new tool
whose dispatch result differs (`new`). -/
theorem allora_run_ignores_registry :
    (alloraBuild alloraOldTool).name = "get_price_prediction" ∧
    Registry.get (Registry.set Registry.empty "get_price_prediction" alloraNewTool)
      "get_price_prediction" = some alloraNewTool ∧
    (alloraBuild alloraOldTool).run
      (Registry.set Registry.empty "get_price_prediction" alloraNewTool) [] = "old" ∧
    dispatchResolved "get_price_prediction" alloraNewTool [] = "new" ∧
    ("old" : String) ≠ "new" :=
  ⟨by decide, rfl, rfl, rfl, by decide⟩

/-- C5 (amended): for the capabilities built by the dexscreener,
coingecko and swap variants the run closure captures only the formatted
name and resolves the tool through the registry at call time, so
re-registering a different tool under that name changes which tool a
subsequent invocation executes; the allora variant's closure instead
captures the tool itself. -/
theorem registry_variants_resolve_at_call_time
    (r : Registry) (t t' : Tool) (args : List (String × JSValue)) :
    (dexToCapability t).run (Registry.set r (formatToolName t.name) t') args =
      dispatchResolved (formatToolName t.name) t' args ∧
    (coingeckoBuild t).run (Registry.set r (formatToolName t.name) t') args =
      dispatchResolved (formatToolName t.name) t' args ∧
    ((swapBuild r t ToolType.dexscreener).2).run
      (Registry.set r (swapFormattedName ToolType.dexscreener t) t') args =
      dispatchResolved (swapFormattedName ToolType.dexscreener t) t' args := by
  refine ⟨(registry_get_set r (formatToolName t.name) t' args).2,
    (registry_get_set r (formatToolName t.name) t' args).2, ?_⟩
  show swapRun ToolType.dexscreener (swapFormattedName ToolType.dexscreener t)
    (Registry.set r (swapFormattedName ToolType.dexscreener t) t') args = _
  rw [swapRun, if_neg (by rintro ⟨h, -⟩; cases h)]
  exact (registry_get_set r (swapFormattedName ToolType.dexscreener t) t' args).2

/-- C9: the observer installed over the completions call is transparent:
for every original call and argument list it delegates exactly once, with
the argument list unaltered, and returns the delegated call's result
unchanged. -/
theorem observer_transparent {R : Type} (original : CreateArgs → R) (args : CreateArgs) :
    (observedCreate original args).2 = original args ∧
    (observedCreate original args).1.filter ObsEvent.isDelegation =
      [ObsEvent.delegated args] := by
  unfold observedCreate
  refine ⟨rfl, ?_⟩
  by_cases h : hasArg args.body "tools" <;>
    simp [h, ObsEvent.isDelegation]

/-- C10: a successful execute returning `undefined` still yields a
string: the `.toString()` access fails inside the `try` and the catch
returns its template naming the capability; a successful `null` result
instead serializes to the text `null`. -/
theorem undefined_result_caught_null_serialized
    (r : Registry) (name : String) (args : List (String × JSValue)) (t : Tool)
    (hres : Registry.get r name = some t) :
    (t.execute args = .ok none →
      capabilityRun r name args =
        "An error occurred while running " ++ name ++ ": " ++ undefinedToStringMessage ∧
      ∃ pre post, (capabilityRun r name args).data = pre ++ name.data ++ post) ∧
    (t.execute args = .ok (some .null) → capabilityRun r name args = "null") := by
  constructor
  · intro hexec
    have hrun : capabilityRun r name args =
        catchTemplate name (.error undefinedToStringMessage) := by
      simp only [capabilityRun, runTry, hres, hexec, Except.bind, normalizeResponse]
    constructor
    · rw [hrun]; rfl
    · rw [hrun]
      refine ⟨"An error occurred while running ".data,
        (": " ++ undefinedToStringMessage).data, ?_⟩
      simp [catchTemplate, thrownMessage, data_append]
  · intro hexec
    simp only [capabilityRun, runTry, hres, hexec, Except.bind, normalizeResponse,
      jsTypeofIsObject, if_pos]
    rfl

/-- C10 witness: the two fixture tools, one resolving to `undefined`,
one to `null`. -/
theorem undefined_result_caught_witness :
    capabilityRun (Registry.set Registry.empty "dex_undef" undefResultTool)
      "dex_undef" [] =
      "An error occurred while running " ++ "dex_undef" ++ ": " ++
        undefinedToStringMessage ∧
    capabilityRun (Registry.set Registry.empty "dex_nullres" nullResultTool)
      "dex_nullres" [] = "null" :=
  ⟨((undefined_result_caught_null_serialized
      (Registry.set Registry.empty "dex_undef" undefResultTool)
      "dex_undef" [] undefResultTool rfl).1 rfl).1,
   (undefined_result_caught_null_serialized
      (Registry.set Registry.empty "dex_nullres" nullResultTool)
      "dex_nullres" [] nullResultTool rfl).2 rfl⟩

/-! ## Round-trip infrastructure: digits and whitespace -/

theorem digitVal_digitChar : ∀ d, d < 10 → digitVal (digitChar d) = d := by decide

theorem digitChar_isDigit : ∀ d, d < 10 → (digitChar d).isDigit = true := by decide

theorem hexVal_hexChar : ∀ d, d < 16 → hexVal (hexChar d) = d := by decide

theorem natCharsAux_digits :
    ∀ fuel n, ∀ c ∈ natCharsAux fuel n, c.isDigit = true := by
  intro fuel
  induction fuel with
  | zero => intro n c hc; simp [natCharsAux] at hc
  | succ f ih =>
    intro n c hc
    rw [natCharsAux] at hc
    by_cases h : n = 0
    · rw [if_pos h] at hc; simp at hc
    · rw [if_neg h] at hc
      rcases List.mem_append.mp hc with h1 | h1
      · exact ih _ _ h1
      · have hc2 : c = digitChar (n % 10) := by simpa using h1
        subst hc2
        exact digitChar_isDigit _ (Nat.mod_lt _ (by omega))

theorem natChars_digits : ∀ n, ∀ c ∈ natChars n, c.isDigit = true := by
  intro n c hc
  rw [natChars] at hc
  by_cases h : n = 0
  · rw [if_pos h] at hc
    have : c = '0' := by simpa using hc
    subst this; decide
  · rw [if_neg h] at hc
    exact natCharsAux_digits n n c hc

theorem natChars_ne_nil (n : Nat) : natChars n ≠ [] := by
  rw [natChars]
  by_cases h : n = 0
  · rw [if_pos h]; simp
  · rw [if_neg h]
    obtain ⟨m, rfl⟩ : ∃ m, n = m + 1 := ⟨n - 1, by omega⟩
    rw [natCharsAux, if_neg h]
    simp

theorem foldl_natCharsAux :
    ∀ fuel n acc, n ≤ fuel →
      (natCharsAux fuel n).foldl (fun a c => a * 10 + digitVal c) acc =
        acc * 10 ^ (natCharsAux fuel n).length + n := by
  intro fuel
  induction fuel with
  | zero =>
    intro n acc h
    have : n = 0 := by omega
    subst this
    simp [natCharsAux]
  | succ f ih =>
    intro n acc h
    rw [natCharsAux]
    by_cases h0 : n = 0
    · rw [if_pos h0]; subst h0; simp
    · rw [if_neg h0]
      have hdiv : n / 10 ≤ f := by
        have := Nat.div_lt_self (Nat.pos_of_ne_zero h0) (by omega : 1 < 10)
        omega
      rw [List.foldl_append, ih (n / 10) acc hdiv]
      simp only [List.foldl_cons, List.foldl_nil, List.length_append,
        List.length_singleton]
      rw [digitVal_digitChar _ (Nat.mod_lt _ (by omega))]
      rw [pow_succ]
      have h2 : n / 10 * 10 + n % 10 = n := by omega
      rw [Nat.add_mul, Nat.add_assoc, h2, Nat.mul_assoc]

theorem charsVal_natChars (n : Nat) :
    (natChars n).foldl (fun a c => a * 10 + digitVal c) 0 = n := by
  rw [natChars]
  by_cases h : n = 0
  · rw [if_pos h]; subst h; decide
  · rw [if_neg h, foldl_natCharsAux n n 0 le_rfl]
    simp

theorem takeWhile_all_append {α : Type} (p : α → Bool) :
    ∀ (xs ys : List α), (∀ c ∈ xs, p c = true) →
      (∀ c, ys.head? = some c → p c = false) →
      (xs ++ ys).takeWhile p = xs ∧ (xs ++ ys).dropWhile p = ys := by
  intro xs
  induction xs with
  | nil =>
    intro ys _ h2
    cases ys with
    | nil => exact ⟨rfl, rfl⟩
    | cons c cs =>
      constructor
      · simp [List.takeWhile, h2 c rfl]
      · simp [List.dropWhile, h2 c rfl]
  | cons x xs ih =>
    intro ys h1 h2
    have hx : p x = true := h1 x (by simp)
    obtain ⟨ht, hd⟩ := ih ys (fun c hc => h1 c (by simp [hc])) h2
    constructor
    · simp [List.takeWhile, hx, ht]
    · simp [List.dropWhile, hx, hd]

theorem dropWhile_all_append {α : Type} (p : α → Bool) :
    ∀ (xs ys : List α), (∀ c ∈ xs, p c = true) →
      (xs ++ ys).dropWhile p = ys.dropWhile p := by
  intro xs
  induction xs with
  | nil => intro ys _; rfl
  | cons x xs ih =>
    intro ys h1
    have hx : p x = true := h1 x (by simp)
    simp only [List.cons_append, List.dropWhile_cons, hx, if_true]
    exact ih ys (fun c hc => h1 c (by simp [hc]))

theorem parseNatChars_natChars (n : Nat) (rest : List Char) (h : numSafe rest) :
    parseNatChars (natChars n ++ rest) = some (n, rest) := by
  obtain ⟨ht, hd⟩ :=
    takeWhile_all_append Char.isDigit (natChars n) rest (natChars_digits n)
      (fun c hc => h c hc)
  cases hcs : natChars n with
  | nil => exact absurd hcs (natChars_ne_nil n)
  | cons c cs =>
    rw [hcs] at ht hd
    simp only [parseNatChars, hcs, List.cons_append] at ht hd ⊢
    rw [ht, hd]
    have hval := charsVal_natChars n
    rw [hcs] at hval
    rw [hval]

theorem skipWS_all_append (ws l : List Char) (h : allWS ws) :
    skipWS (ws ++ l) = skipWS l :=
  dropWhile_all_append isWS ws l h

theorem skipWS_cons (c : Char) (l : List Char) (h : isWS c = false) :
    skipWS (c :: l) = c :: l := by
  simp [skipWS, List.dropWhile_cons, h]

theorem pad_allWS (n : Nat) : allWS (pad n) := by
  intro c hc
  rw [pad] at hc
  rw [List.eq_of_mem_replicate hc]
  decide

theorem nl_pad_allWS (n : Nat) : allWS ('\n' :: pad n) := by
  intro c hc
  rcases List.mem_cons.mp hc with h | h
  · subst h; decide
  · exact pad_allWS n c h

theorem space_allWS : allWS [' '] := by
  intro c hc
  have : c = ' ' := by simpa using hc
  subst this; decide

theorem isWS_not_digit (c : Char) (h : isWS c = true) : c.isDigit = false := by
  simp only [isWS, Bool.or_eq_true, decide_eq_true_eq] at h
  rcases h with ((h | h) | h) | h <;> subst h <;> decide

theorem digit_ne_of (c : Char) (h : c.isDigit = true) (d : Char)
    (hd : d.isDigit = false) : c ≠ d := by
  intro he
  subst he
  rw [h] at hd
  cases hd

theorem digit_not_ws (c : Char) (h : c.isDigit = true) : isWS c = false := by
  by_cases hws : isWS c = true
  · rw [isWS_not_digit c hws] at h; cases h
  · simpa using hws

theorem numSafe_cons (c : Char) (l : List Char) (h : c.isDigit = false) :
    numSafe (c :: l) := by
  intro d hd
  have : c = d := by simpa using hd
  subst this
  exact h

theorem numSafe_ws_cons (ws : List Char) (c : Char) (rest : List Char)
    (hws : allWS ws) (hc : c.isDigit = false) :
    numSafe (ws ++ c :: rest) := by
  cases ws with
  | nil => exact numSafe_cons c rest hc
  | cons w ws' =>
    exact numSafe_cons w _ (isWS_not_digit w (hws w (by simp)))

theorem mk_data (s : String) : String.mk s.data = s := rfl

theorem serV_head_spec (ind : Nat) (v : JSValue) :
    ∃ c cs, serV ind v = c :: cs ∧
      (c = 'n' ∨ c = 't' ∨ c = 'f' ∨ c.isDigit = true ∨ c = '-' ∨ c = '"' ∨
        c = '[' ∨ c = '\x7b') := by
  cases v with
  | null => exact ⟨'n', _, rfl, by tauto⟩
  | bool b =>
    cases b
    · exact ⟨'f', _, rfl, by tauto⟩
    · exact ⟨'t', _, rfl, by tauto⟩
  | num n =>
    show ∃ c cs, intChars n = c :: cs ∧ _
    rw [intChars]
    by_cases h : n < 0
    · rw [if_pos h]; exact ⟨'-', _, rfl, by tauto⟩
    · rw [if_neg h]
      cases hcs : natChars n.toNat with
      | nil => exact absurd hcs (natChars_ne_nil _)
      | cons c cs =>
        have hd : c.isDigit = true := natChars_digits n.toNat c (by rw [hcs]; simp)
        exact ⟨c, cs, rfl, by tauto⟩
  | str s => exact ⟨'"', _, rfl, by tauto⟩
  | arr l =>
    cases l with
    | nil => exact ⟨'[', _, rfl, by tauto⟩
    | cons x xs => exact ⟨'[', _, rfl, by tauto⟩
  | obj l =>
    cases l with
    | nil => exact ⟨'\x7b', _, rfl, by tauto⟩
    | cons f fs => exact ⟨'\x7b', _, rfl, by tauto⟩

theorem serV_starts (ind : Nat) (v : JSValue) :
    ∃ c cs, serV ind v = c :: cs ∧ isWS c = false ∧ c ≠ ']' ∧ c ≠ '\x7d' := by
  obtain ⟨c, cs, he, hd⟩ := serV_head_spec ind v
  refine ⟨c, cs, he, ?_, ?_, ?_⟩ <;>
    rcases hd with h | h | h | h | h | h | h | h <;>
      first
        | (subst h; decide)
        | (first
            | exact digit_not_ws c h
            | exact digit_ne_of c h ']' (by decide)
            | exact digit_ne_of c h '\x7d' (by decide))

theorem skipWS_ws_chunk (ws : List Char) (c : Char) (l : List Char)
    (hws : allWS ws) (hc : isWS c = false) :
    skipWS (ws ++ c :: l) = c :: l := by
  rw [skipWS_all_append ws (c :: l) hws, skipWS_cons c l hc]

theorem parseVal_ws (fuel : Nat) (ws l : List Char) (h : allWS ws) :
    parseVal fuel (ws ++ l) = parseVal fuel l := by
  cases fuel with
  | zero => rfl
  | succ f =>
    simp only [parseVal]
    rw [show skipWS (ws ++ l) = skipWS l from skipWS_all_append ws l h]

theorem parseStrBody_escapes :
    ∀ cs rest, parseStrBody (cs.flatMap escapeChar ++ '"' :: rest) = some (cs, rest) := by
  intro cs
  induction cs with
  | nil =>
    intro rest
    rw [List.flatMap_nil, List.nil_append, parseStrBody.eq_def]
    simp
  | cons c cs ih =>
    intro rest
    rw [List.flatMap_cons, List.append_assoc]
    rw [escapeChar]
    by_cases h1 : c = '"'
    · rw [if_pos h1]; subst h1
      rw [List.cons_append, List.cons_append, List.nil_append, parseStrBody.eq_def]
      simp [unescape, ih]
    rw [if_neg h1]
    by_cases h2 : c = '\\'
    · rw [if_pos h2]; subst h2
      rw [List.cons_append, List.cons_append, List.nil_append, parseStrBody.eq_def]
      simp [unescape, ih]
    rw [if_neg h2]
    by_cases h3 : c = '\x08'
    · rw [if_pos h3]; subst h3
      rw [List.cons_append, List.cons_append, List.nil_append, parseStrBody.eq_def]
      simp [unescape, ih]
    rw [if_neg h3]
    by_cases h4 : c = '\x0c'
    · rw [if_pos h4]; subst h4
      rw [List.cons_append, List.cons_append, List.nil_append, parseStrBody.eq_def]
      simp [unescape, ih]
    rw [if_neg h4]
    by_cases h5 : c = '\n'
    · rw [if_pos h5]; subst h5
      rw [List.cons_append, List.cons_append, List.nil_append, parseStrBody.eq_def]
      simp [unescape, ih]
    rw [if_neg h5]
    by_cases h6 : c = '\r'
    · rw [if_pos h6]; subst h6
      rw [List.cons_append, List.cons_append, List.nil_append, parseStrBody.eq_def]
      simp [unescape, ih]
    rw [if_neg h6]
    by_cases h7 : c = '\t'
    · rw [if_pos h7]; subst h7
      rw [List.cons_append, List.cons_append, List.nil_append, parseStrBody.eq_def]
      simp [unescape, ih]
    rw [if_neg h7]
    by_cases h8 : c.toNat < 32
    · rw [if_pos h8]
      simp only [List.cons_append, List.nil_append]
      rw [parseStrBody.eq_def]
      have hval : ((hexVal '0' * 16 + hexVal '0') * 16 + hexVal (hexChar (c.toNat / 16)))
          * 16 + hexVal (hexChar (c.toNat % 16)) = c.toNat := by
        rw [hexVal_hexChar _ (by omega), hexVal_hexChar _ (by omega)]
        have h0 : hexVal '0' = 0 := by decide
        rw [h0]
        omega
      simp [ih, hval, Char.ofNat_toNat]
    · rw [if_neg h8]
      simp only [List.cons_append, List.nil_append]
      rw [parseStrBody.eq_def]
      simp only [if_neg h1, if_neg h2]
      rw [ih]
      rfl

theorem one_le_needV : ∀ v : JSValue, 1 ≤ needV v := by
  intro v
  cases v with
  | arr l => cases l <;> simp [needV]
  | obj l => cases l <;> simp [needV]
  | str s => simp [needV]
  | num n => simp [needV]
  | bool b => simp [needV]
  | null => simp [needV]

theorem one_le_needElems : ∀ xs : List JSValue, 1 ≤ needElems xs := by
  intro xs
  cases xs <;> simp [needElems]

theorem one_le_needFields : ∀ fs : List (String × JSValue), 1 ≤ needFields fs := by
  intro fs
  cases fs <;> simp [needFields]

theorem numSafe_serElemsTail (ind : Nat) (xs : List JSValue) (l : List Char)
    (h : numSafe l) : numSafe (serElemsTail ind xs ++ l) := by
  cases xs with
  | nil => simpa [serElemsTail] using h
  | cons y ys =>
    rw [serElemsTail, List.cons_append]
    exact numSafe_cons ',' _ (by decide)

theorem numSafe_serFieldsTail (ind : Nat) (fs : List (String × JSValue)) (l : List Char)
    (h : numSafe l) : numSafe (serFieldsTail ind fs ++ l) := by
  cases fs with
  | nil => simpa [serFieldsTail] using h
  | cons f fs' =>
    rw [serFieldsTail, List.cons_append]
    exact numSafe_cons ',' _ (by decide)

theorem skipWS_nl_pad_cons (m : Nat) (c : Char) (l : List Char) (hc : isWS c = false) :
    skipWS ('\n' :: (pad m ++ c :: l)) = c :: l := by
  rw [show ('\n' :: (pad m ++ c :: l)) = (('\n' :: pad m) ++ c :: l) from rfl]
  exact skipWS_ws_chunk _ _ _ (nl_pad_allWS m) hc

theorem skipWS_nl_pad_serV (m ind : Nat) (v : JSValue) (r : List Char) :
    skipWS ('\n' :: (pad m ++ (serV ind v ++ r))) = serV ind v ++ r := by
  obtain ⟨c0, cs0, hEq, hnws, -, -⟩ := serV_starts ind v
  rw [show ('\n' :: (pad m ++ (serV ind v ++ r))) =
    (('\n' :: pad m) ++ (serV ind v ++ r)) from rfl]
  rw [skipWS_all_append _ _ (nl_pad_allWS m), hEq, List.cons_append]
  exact skipWS_cons _ _ hnws

theorem serV_append_head_ne (ind : Nat) (v : JSValue) (r : List Char) :
    ¬(serV ind v ++ r).head? = some ']' ∧ ¬(serV ind v ++ r).head? = some '\x7d' := by
  obtain ⟨c0, cs0, hEq, -, h1, h2⟩ := serV_starts ind v
  rw [hEq, List.cons_append]
  constructor <;> simp [h1, h2]

theorem parseVal_nl_pad (fuel m : Nat) (l : List Char) :
    parseVal fuel ('\n' :: (pad m ++ l)) = parseVal fuel l := by
  rw [show ('\n' :: (pad m ++ l)) = (('\n' :: pad m) ++ l) from rfl]
  exact parseVal_ws fuel _ l (nl_pad_allWS m)

theorem parseVal_space (fuel : Nat) (l : List Char) :
    parseVal fuel (' ' :: l) = parseVal fuel l := by
  rw [show (' ' :: l) = ([' '] ++ l) from rfl]
  exact parseVal_ws fuel _ l space_allWS

theorem parse_ser_rt : ∀ fuel : Nat,
    (∀ v ind rest, needV v ≤ fuel → numSafe rest →
      parseVal fuel (serV ind v ++ rest) = some (v, rest)) ∧
    (∀ xs ind ws rest, needElems xs ≤ fuel → allWS ws →
      parseElems fuel (serElemsTail ind xs ++ ws ++ ']' :: rest) = some (xs, rest)) ∧
    (∀ fs ind ws rest, needFields fs ≤ fuel → allWS ws →
      parseFields fuel (serFieldsTail ind fs ++ ws ++ '\x7d' :: rest) = some (fs, rest)) := by
  intro fuel
  induction fuel with
  | zero =>
    refine ⟨fun v _ _ h _ => absurd h (by have := one_le_needV v; omega),
      fun xs _ _ _ h _ => absurd h (by have := one_le_needElems xs; omega),
      fun fs _ _ _ h _ => absurd h (by have := one_le_needFields fs; omega)⟩
  | succ fuel ih =>
    obtain ⟨ihV, ihE, ihF⟩ := ih
    refine ⟨?_, ?_, ?_⟩
    · intro v ind rest hneed hsafe
      cases v with
      | null =>
        simp only [serV, List.cons_append, List.nil_append, parseVal]
        rw [skipWS_cons _ _ (by decide)]
        simp
      | bool b =>
        cases b with
        | false =>
          simp only [serV, List.cons_append, List.nil_append, parseVal]
          rw [skipWS_cons _ _ (by decide)]
          simp
        | true =>
          simp only [serV, List.cons_append, List.nil_append, parseVal]
          rw [skipWS_cons _ _ (by decide)]
          simp
      | num n =>
        simp only [serV]
        rw [intChars]
        by_cases hn : n < 0
        · rw [if_pos hn, List.cons_append]
          simp only [parseVal]
          rw [skipWS_cons _ _ (by decide)]
          simp only []
          simp only [Char.reduceEq, reduceIte]
          rw [parseNatChars_natChars _ _ hsafe]
          simp only []
          have hval : (-(n.natAbs : Int)) = n := by omega
          rw [hval]
        · rw [if_neg hn]
          cases hcs : natChars n.toNat with
          | nil => exact absurd hcs (natChars_ne_nil _)
          | cons c cs =>
            have hd : c.isDigit = true := natChars_digits _ c (by rw [hcs]; simp)
            rw [List.cons_append]
            simp only [parseVal]
            rw [skipWS_cons _ _ (digit_not_ws c hd)]
            simp only []
            rw [if_neg (digit_ne_of c hd 'n' (by decide)),
              if_neg (digit_ne_of c hd 't' (by decide)),
              if_neg (digit_ne_of c hd 'f' (by decide)),
              if_neg (digit_ne_of c hd '"' (by decide)),
              if_neg (digit_ne_of c hd '-' (by decide)), if_pos hd]
            rw [show (c :: (cs ++ rest)) = ((c :: cs) ++ rest) from rfl, ← hcs]
            rw [parseNatChars_natChars _ _ hsafe]
            simp only []
            have hval : ((n.toNat : Nat) : Int) = n := by omega
            rw [hval]
      | str s =>
        simp only [serV, serStr, List.cons_append, List.append_assoc, List.nil_append]
        simp only [parseVal]
        rw [skipWS_cons _ _ (by decide)]
        simp only []
        simp only [Char.reduceEq, reduceIte]
        rw [parseStrBody_escapes]
        simp [mk_data]
      | arr l =>
        cases l with
        | nil =>
          simp only [serV, List.cons_append, List.nil_append, parseVal]
          rw [skipWS_cons _ _ (by decide)]
          simp only []
          simp only [Char.reduceEq, reduceIte]
          rw [if_neg (by decide : ¬('['.isDigit = true))]
          rw [skipWS_cons _ _ (by decide)]
          simp
        | cons x xs =>
          have hx : needV x ≤ fuel := by simp only [needV] at hneed; omega
          have hxs : needElems xs ≤ fuel := by simp only [needV] at hneed; omega
          simp only [serV, List.cons_append, List.append_assoc, List.nil_append]
          simp only [parseVal]
          rw [skipWS_cons _ _ (by decide)]
          simp only []
          simp only [Char.reduceEq, reduceIte]
          rw [if_neg (by decide : ¬('['.isDigit = true))]
          rw [skipWS_nl_pad_serV]
          rw [if_neg (serV_append_head_ne _ _ _).1]
          rw [ihV x (ind + 2) _ hx
            (numSafe_serElemsTail _ _ _ (numSafe_cons _ _ (by decide)))]
          simp only []
          have he := ihE xs (ind + 2) ('\n' :: pad ind) rest hxs (nl_pad_allWS ind)
          simp only [List.cons_append, List.append_assoc] at he
          rw [he]
      | obj l =>
        cases l with
        | nil =>
          simp only [serV, List.cons_append, List.nil_append, parseVal]
          rw [skipWS_cons _ _ (by decide)]
          simp only []
          simp only [Char.reduceEq, reduceIte]
          rw [if_neg (by decide : ¬('\x7b'.isDigit = true))]
          rw [skipWS_cons _ _ (by decide)]
          simp
        | cons f fs =>
          have hf : needV f.2 ≤ fuel := by simp only [needV] at hneed; omega
          have hfs : needFields fs ≤ fuel := by simp only [needV] at hneed; omega
          simp only [serV, serStr, List.cons_append, List.append_assoc, List.nil_append]
          simp only [parseVal]
          rw [skipWS_cons _ _ (by decide)]
          simp only []
          simp only [Char.reduceEq, reduceIte]
          rw [if_neg (by decide : ¬('\x7b'.isDigit = true))]
          rw [skipWS_nl_pad_cons _ _ _ (by decide)]
          simp only [List.head?_cons, List.tail_cons, Option.some.injEq,
            Char.reduceEq, reduceIte]
          rw [parseStrBody_escapes]
          simp only []
          rw [skipWS_cons _ _ (by decide)]
          simp only [List.head?_cons, List.tail_cons, Option.some.injEq,
            Char.reduceEq, reduceIte]
          rw [parseVal_space]
          rw [ihV f.2 (ind + 2) _ hf
            (numSafe_serFieldsTail _ _ _ (numSafe_cons _ _ (by decide)))]
          simp only []
          have he := ihF fs (ind + 2) ('\n' :: pad ind) rest hfs (nl_pad_allWS ind)
          simp only [List.cons_append, List.append_assoc] at he
          rw [he]
    · intro xs ind ws rest hneed hws
      cases xs with
      | nil =>
        simp only [serElemsTail, List.nil_append, parseElems]
        rw [skipWS_ws_chunk ws ']' rest hws (by decide)]
        simp
      | cons y ys =>
        have hy : needV y ≤ fuel := by simp only [needElems] at hneed; omega
        have hys : needElems ys ≤ fuel := by simp only [needElems] at hneed; omega
        simp only [serElemsTail, List.cons_append, List.append_assoc, parseElems]
        rw [skipWS_cons _ _ (by decide)]
        simp only [List.head?_cons, List.tail_cons, Option.some.injEq,
          Char.reduceEq, reduceIte]
        rw [parseVal_nl_pad]
        rw [ihV y ind _ hy
          (numSafe_serElemsTail _ _ _ (numSafe_ws_cons ws ']' rest hws (by decide)))]
        simp only []
        have he := ihE ys ind ws rest hys hws
        simp only [List.append_assoc] at he
        rw [he]
    · intro fs ind ws rest hneed hws
      cases fs with
      | nil =>
        simp only [serFieldsTail, List.nil_append, parseFields]
        rw [skipWS_ws_chunk ws '\x7d' rest hws (by decide)]
        simp
      | cons f fs' =>
        have hf : needV f.2 ≤ fuel := by simp only [needFields] at hneed; omega
        have hfs : needFields fs' ≤ fuel := by simp only [needFields] at hneed; omega
        simp only [serFieldsTail, serStr, List.cons_append, List.append_assoc,
          List.nil_append, parseFields]
        rw [skipWS_cons _ _ (by decide)]
        simp only [List.head?_cons, List.tail_cons, Option.some.injEq,
          Char.reduceEq, reduceIte]
        rw [skipWS_nl_pad_cons _ _ _ (by decide)]
        simp only [List.head?_cons, List.tail_cons, Option.some.injEq,
          Char.reduceEq, reduceIte]
        rw [parseStrBody_escapes]
        simp only []
        rw [skipWS_cons _ _ (by decide)]
        simp only [List.head?_cons, List.tail_cons, Option.some.injEq,
          Char.reduceEq, reduceIte]
        rw [parseVal_space]
        rw [ihV f.2 ind _ hf
          (numSafe_serFieldsTail _ _ _ (numSafe_ws_cons ws '\x7d' rest hws (by decide)))]
        simp only []
        have he := ihF fs' ind ws rest hfs hws
        simp only [List.append_assoc] at he
        rw [he]

theorem one_le_natChars_len (n : Nat) : 1 ≤ (natChars n).length := by
  have h := natChars_ne_nil n
  cases hcs : natChars n with
  | nil => exact absurd hcs h
  | cons c cs => simp

theorem one_le_intChars_len (n : Int) : 1 ≤ (intChars n).length := by
  rw [intChars]
  by_cases h : n < 0
  · rw [if_pos h]; simp
  · rw [if_neg h]; exact one_le_natChars_len _

theorem need_le_len : ∀ N : Nat,
    (∀ v : JSValue, sizeOf v ≤ N → ∀ ind, needV v ≤ (serV ind v).length) ∧
    (∀ xs : List JSValue, sizeOf xs ≤ N → ∀ ind,
      needElems xs ≤ (serElemsTail ind xs).length + 1) ∧
    (∀ fs : List (String × JSValue), sizeOf fs ≤ N → ∀ ind,
      needFields fs ≤ (serFieldsTail ind fs).length + 1) := by
  intro N
  induction N with
  | zero =>
    refine ⟨fun v hv => absurd hv ?_, fun xs hxs => absurd hxs ?_,
      fun fs hfs => absurd hfs ?_⟩
    · cases v <;> simp_arith
    · cases xs <;> simp_arith
    · cases fs <;> simp_arith
  | succ N ih =>
    obtain ⟨ihV, ihE, ihF⟩ := ih
    refine ⟨?_, ?_, ?_⟩
    · intro v hv ind
      cases v with
      | null => simp [needV, serV, List.length_cons]
      | bool b => cases b <;> simp [needV, serV, List.length_cons]
      | num n =>
        have := one_le_intChars_len n
        simp only [needV, serV]
        omega
      | str s => simp [needV, serV, serStr]
      | arr l =>
        cases l with
        | nil => simp [needV, serV]
        | cons x xs =>
          have hsx : sizeOf x ≤ N := by
            have := hv; simp only [JSValue.arr.sizeOf_spec, List.cons.sizeOf_spec] at this
            omega
          have hsxs : sizeOf xs ≤ N := by
            have := hv; simp only [JSValue.arr.sizeOf_spec, List.cons.sizeOf_spec] at this
            omega
          have h1 := ihV x hsx (ind + 2)
          have h2 := ihE xs hsxs (ind + 2)
          simp only [needV, serV, List.length_cons, List.length_append, pad,
            List.length_replicate, List.length_singleton]
          omega
      | obj l =>
        cases l with
        | nil => simp [needV, serV]
        | cons f fs =>
          have hsf : sizeOf f.2 ≤ N := by
            have := hv
            simp only [JSValue.obj.sizeOf_spec, List.cons.sizeOf_spec,
              Prod.mk.sizeOf_spec] at this
            cases f with
            | mk a b => simp at this ⊢; omega
          have hsfs : sizeOf fs ≤ N := by
            have := hv
            simp only [JSValue.obj.sizeOf_spec, List.cons.sizeOf_spec] at this
            omega
          have h1 := ihV f.2 hsf (ind + 2)
          have h2 := ihF fs hsfs (ind + 2)
          simp only [needV, serV, serStr, List.length_cons, List.length_append, pad,
            List.length_replicate, List.length_singleton]
          omega
    · intro xs hxs ind
      cases xs with
      | nil => simp [needElems, serElemsTail]
      | cons y ys =>
        have hsy : sizeOf y ≤ N := by
          have := hxs; simp only [List.cons.sizeOf_spec] at this; omega
        have hsys : sizeOf ys ≤ N := by
          have := hxs; simp only [List.cons.sizeOf_spec] at this; omega
        have h1 := ihV y hsy ind
        have h2 := ihE ys hsys ind
        simp only [needElems, serElemsTail, List.length_cons, List.length_append, pad,
          List.length_replicate]
        omega
    · intro fs hfs ind
      cases fs with
      | nil => simp [needFields, serFieldsTail]
      | cons f fs' =>
        have hsf : sizeOf f.2 ≤ N := by
          have := hfs
          simp only [List.cons.sizeOf_spec, Prod.mk.sizeOf_spec] at this
          cases f with
          | mk a b => simp at this ⊢; omega
        have hsfs : sizeOf fs' ≤ N := by
          have := hfs; simp only [List.cons.sizeOf_spec] at this; omega
        have h1 := ihV f.2 hsf ind
        have h2 := ihF fs' hsfs ind
        simp only [needFields, serFieldsTail, serStr, List.length_cons,
          List.length_append, pad, List.length_replicate]
        omega

theorem jsonParse_stringify2 (v : JSValue) :
    jsonParse (jsonStringify2 v) = some v := by
  have hneed : needV v ≤ (serV 0 v).length + 1 := by
    have := (need_le_len (sizeOf v)).1 v le_rfl 0
    omega
  have h := (parse_ser_rt ((serV 0 v).length + 1)).1 v 0 [] hneed
    (fun c hc => by simp at hc)
  rw [List.append_nil] at h
  unfold jsonParse jsonStringify2
  rw [show (String.mk (serV 0 v)).data = serV 0 v from rfl]
  rw [h]
  simp [skipWS]

/-- C6: for a registered tool whose execute succeeds, a non-string result
is returned as its canonical pretty-printed serialization
(`JSON.stringify(·, null, 2)`), and parsing that text back recovers the
very value (round-trip of the serialization step); a string result is
returned unchanged. -/
theorem structured_result_roundtrip
    (r : Registry) (name : String) (args : List (String × JSValue)) (t : Tool)
    (v : JSValue) (hres : Registry.get r name = some t)
    (hexec : t.execute args = .ok (some v)) :
    ((∀ s, v ≠ JSValue.str s) →
      capabilityRun r name args = jsonStringify2 v ∧
      jsonParse (jsonStringify2 v) = some v) ∧
    (∀ s, v = JSValue.str s → capabilityRun r name args = s) := by
  have hrun : capabilityRun r name args =
      (match normalizeResponse (some v) with
        | .ok s => s
        | .error e => catchTemplate name e) := by
    simp only [capabilityRun, runTry, hres, hexec, Except.bind]
  constructor
  · intro hns
    constructor
    · rw [hrun]
      cases v with
      | str s => exact absurd rfl (hns s)
      | num n => rfl
      | bool b => cases b <;> rfl
      | null => rfl
      | arr l => rfl
      | obj l => rfl
    · exact jsonParse_stringify2 v
  · intro s hs
    subst hs
    rw [hrun]
    rfl

/-- C6 witness: the spec's scenario value `{"price": 123}` and a plain
string result. -/
theorem structured_result_roundtrip_witness :
    capabilityRun (Registry.set Registry.empty "dex_search_pairs" structuredTool)
      "dex_search_pairs" [] = jsonStringify2 (.obj [("price", .num 123)]) ∧
    jsonParse (jsonStringify2 (.obj [("price", .num 123)])) =
      some (.obj [("price", .num 123)]) ∧
    capabilityRun (Registry.set Registry.empty "dex_textual" stringResultTool)
      "dex_textual" [] = "plain text" := by
  refine ⟨?_, ?_, ?_⟩
  · exact ((structured_result_roundtrip
      (Registry.set Registry.empty "dex_search_pairs" structuredTool)
      "dex_search_pairs" [] structuredTool (.obj [("price", .num 123)]) rfl rfl).1
      (fun s h => JSValue.noConfusion h)).1
  · exact ((structured_result_roundtrip
      (Registry.set Registry.empty "dex_search_pairs" structuredTool)
      "dex_search_pairs" [] structuredTool (.obj [("price", .num 123)]) rfl rfl).1
      (fun s h => JSValue.noConfusion h)).2
  · exact (structured_result_roundtrip
      (Registry.set Registry.empty "dex_textual" stringResultTool)
      "dex_textual" [] stringResultTool (.str "plain text") rfl rfl).2
      "plain text" rfl
